import Mathlib

/-!
Verification of the argument-resolution engine of the HotSpot VM
(`src/hotspot/src/share/vm/runtime/arguments.hpp`).

The header file contains several inline member functions which are embedded
here directly from their C++ source.  Functions that are only declared in the
header (their bodies live in `arguments.cpp`, which is not part of this
repository snapshot) are modelled from the specification; each such
definition carries a doc comment starting with `Modelled from the spec:`.

C strings are modelled as Lean `String`s (a NULL pointer as `Option.none`);
heap buffers are modelled by an explicit allocator state so that ownership
transfer (fresh allocation, freeing of the old buffer) is observable.
Machine integers (`julong`) are modelled as `Nat` with explicit `2 ^ 64`
bounds where overflow matters.
-/

/-- Allocator state: `next` is the next fresh buffer id (monotonically
increasing, so ids below `next` are exactly the ids handed out so far), and
`freed` records the ids passed to `FreeHeap`. -/
structure Alloc where
  next : Nat
  freed : List Nat
deriving DecidableEq

/-- AllocateHeap: hands out the next fresh buffer id. -/
def Alloc.alloc (a : Alloc) : Nat × Alloc :=
  (a.next, { next := a.next + 1, freed := a.freed })

/-- FreeHeap: records the freed buffer id. -/
def Alloc.free (a : Alloc) (i : Nat) : Alloc :=
  { next := a.next, freed := i :: a.freed }

/-- Platform path separator, `os::path_separator()` in the source (an external
collaborator of the engine; a one-character separator string). -/
def pathSep : String := ":"

/-- PathString (arguments.hpp lines 48-108): `_value` is a heap buffer or
NULL.  Modelled as the buffer id together with its character contents. -/
structure PathString where
  buf : Option (Nat × String)
deriving DecidableEq

/-- Contents of the `_value` buffer, `NULL` as `none`. -/
def PathString.value (ps : PathString) : Option String :=
  ps.buf.map Prod.snd

/-- PathString::set_value (lines 54-67): frees the old buffer if any,
allocates a fresh one holding a copy of `value`, returns true (the
out-of-memory branch is unreachable under the allocation model, matching the
`assert` in the source). -/
def PathString.set_value (ps : PathString) (a : Alloc) (v : String) :
    PathString × Alloc × Bool :=
  let a1 := match ps.buf with
    | some (oldId, _) => a.free oldId
    | none => a
  let fresh := a1.alloc
  (⟨some (fresh.1, v)⟩, fresh.2, true)

/-- PathString::append_value (lines 69-91): if the argument is NULL nothing
happens; otherwise a fresh buffer is allocated; if the old value is non-NULL
the new buffer holds old value, path separator, argument concatenated and the
old buffer is freed, else it holds just the argument. -/
def PathString.append_value (ps : PathString) (a : Alloc) (value : Option String) :
    PathString × Alloc :=
  match value with
  | none => (ps, a)
  | some p =>
    let fresh := a.alloc
    match ps.buf with
    | some (oldId, s) =>
        (⟨some (fresh.1, s ++ pathSep ++ p)⟩, fresh.2.free oldId)
    | none =>
        (⟨some (fresh.1, p)⟩, fresh.2)

/-- SystemProperty (lines 145-187): a PathString plus key, internal and
writeable flags (`_next` is represented by list position when properties are
put in a list). -/
structure SystemProperty where
  path : PathString
  key : Option String
  internal : Bool
  writeable : Bool
deriving DecidableEq

/-- Value accessor: delegates to PathString::value. -/
def SystemProperty.value (sp : SystemProperty) : Option String :=
  sp.path.value

/-- SystemProperty::set_writeable_value (lines 168-173): only a writeable
property may have its value set through this interface; otherwise the call
returns false and changes nothing. -/
def SystemProperty.set_writeable_value (sp : SystemProperty) (a : Alloc) (v : String) :
    SystemProperty × Alloc × Bool :=
  if sp.writeable then
    let r := sp.path.set_value a v
    ({ sp with path := r.1 }, r.2.1, r.2.2)
  else
    (sp, a, false)

/-- AgentState (lines 196-199). -/
inductive AgentState
  | agent_invalid
  | agent_valid
deriving DecidableEq

/-- AgentLibrary (lines 191-240).  `id` models the node's heap address (the
C++ code compares nodes by pointer identity); `os_lib` is the opaque native
handle, modelled as a number (0 for NULL). -/
structure AgentLibrary where
  id : Nat
  name : String
  options : Option String
  os_lib : Nat
  is_absolute_path : Bool
  is_static_lib : Bool
  state : AgentState
deriving DecidableEq

/-- AgentLibraryList::add (lines 252-260): appends at the tail (the `_next`
chain of the C++ list is the successor relation of the Lean list). -/
def AgentLibraryList.add (l : List AgentLibrary) (lib : AgentLibrary) :
    List AgentLibrary :=
  l ++ [lib]

/-- AgentLibraryList::remove (lines 263-285): scans for the node (by pointer
identity, here by `id`), bypasses it when found; the returned Boolean is the
condition of the `assert(curr != NULL, "always should be found")` — `false`
means the assertion fires (a fatal error in debug builds) and the list is
left unchanged. -/
def AgentLibraryList.remove : List AgentLibrary → AgentLibrary →
    List AgentLibrary × Bool
  | [], _ => ([], false)
  | x :: xs, lib =>
      if x.id = lib.id then (xs, true)
      else
        let r := AgentLibraryList.remove xs lib
        (x :: r.1, r.2)

/-- Arguments::convert_library_to_agent (lines 686-688): removes the node
from the library list and appends it to the agent list.  The pair is
(new library list, new agent list); the Boolean is the assertion condition
from `remove`. -/
def convert_library_to_agent (libraries agents : List AgentLibrary)
    (lib : AgentLibrary) : (List AgentLibrary × List AgentLibrary) × Bool :=
  let r := AgentLibraryList.remove libraries lib
  ((r.1, AgentLibraryList.add agents lib), r.2)

/-- Arguments::set_bootclassloader_append_index (lines 676-681): sets the
index only if it still holds the sentinel -1. -/
def set_bootclassloader_append_index (current : Int) (value : Int) : Int :=
  if current = -1 then value else current

/-! ### Typed value parsing (spec section 4.1)

The body of `Arguments::parse_memory_size` lives in `arguments.cpp`, which
is not part of this repository snapshot; only its declaration
(arguments.hpp lines 513-516) and the `ArgsRange` enum (lines 321-326) are.
The parser is therefore modelled from the specification. -/

/-- ArgsRange (arguments.hpp lines 321-326). -/
inductive ArgsRange
  | arg_unreadable
  | arg_too_small
  | arg_too_big
  | arg_in_range
deriving DecidableEq

/-- Modelled from the spec: the unit-suffix table of `parse_memory_size` —
k/K, m/M, g/G mean 1024, 1024 squared, 1024 cubed; any other character is
not a unit suffix. -/
def unitMultiplier (c : Char) : Option Nat :=
  if c = 'k' ∨ c = 'K' then some 1024
  else if c = 'm' ∨ c = 'M' then some 1048576
  else if c = 'g' ∨ c = 'G' then some 1073741824
  else none

/-- Value of a decimal digit string (most significant digit first). -/
def digitsToNat (ds : List Char) : Nat :=
  ds.foldl (fun acc c => acc * 10 + (c.toNat - 48)) 0

/-- Modelled from the spec: split the input into the numeral part and the
unit multiplier (1 when no trailing unit suffix is present). -/
def splitUnitSuffix (s : List Char) : List Char × Nat :=
  match s.getLast? with
  | none => (s, 1)
  | some c =>
      match unitMultiplier c with
      | some m => (s.dropLast, m)
      | none => (s, 1)

/-- Modelled from the spec: `Arguments::check_memory_size` (declared at
arguments.hpp line 514) compares the final byte count against the minimum. -/
def check_memory_size (size min_size : Nat) : ArgsRange :=
  if size < min_size then ArgsRange.arg_too_small else ArgsRange.arg_in_range

/-- Modelled from the spec: `Arguments::parse_memory_size` (declared at
arguments.hpp lines 515-516).  Accepts an unsigned decimal literal with an
optional single-letter unit suffix; rejects malformed numerals and
suffix-only or empty input as unreadable; detects 64-bit multiplication
overflow before it wraps and reports too big; compares the final byte count
against the minimum and reports too small if lower. -/
def parse_memory_size (s : List Char) (min_size : Nat) : ArgsRange × Nat :=
  let split := splitUnitSuffix s
  if split.1 = [] ∨ ∃ c ∈ split.1, c.isDigit = false then
    (ArgsRange.arg_unreadable, 0)
  else
    let sz := digitsToNat split.1 * split.2
    if 2 ^ 64 ≤ sz then (ArgsRange.arg_too_big, 0)
    else (check_memory_size sz min_size, sz)

/-! ### Resolved-flag store and option-source merging (spec sections 4.5-4.6)

`Arguments::parse_vm_init_args` (declared at arguments.hpp lines 502-504) is
implemented in `arguments.cpp`, absent from this snapshot; the merging of the
three option streams is modelled from the specification: streams are
processed in ascending precedence order and, within the flag store, a later
write for the same canonical name overwrites the earlier one in place. -/

/-- Record a resolved flag: overwrite an existing binding for the same
canonical name in place, else append a new binding at the tail. -/
def setFlag : List (String × String) → String → String → List (String × String)
  | [], k, v => [(k, v)]
  | (k', v') :: rest, k, v =>
      if k' = k then (k, v) :: rest else (k', v') :: setFlag rest k v

/-- Look up the resolved value of a canonical flag name. -/
def lookupFlag : List (String × String) → String → Option String
  | [], _ => none
  | (k', v) :: rest, k => if k' = k then some v else lookupFlag rest k

/-- Process one option stream in order against the flag store. -/
def applyArgs (store : List (String × String)) (args : List (String × String)) :
    List (String × String) :=
  args.foldl (fun st kv => setFlag st kv.1 kv.2) store

/-- Value of the last occurrence of a flag name within one option stream
(none when the stream never sets the name). -/
def lastValue : List (String × String) → String → Option String
  | [], _ => none
  | (k', v) :: rest, k =>
      match lastValue rest k with
      | some w => some w
      | none => if k' = k then some v else none

/-- Modelled from the spec: `Arguments::parse_vm_init_args` merges the
JAVA_TOOL_OPTIONS stream, the _JAVA_OPTIONS stream and the command-line
stream in ascending precedence order into one resolved-flag store. -/
def parse_vm_init_args
    (java_tool_options_args java_options_args cmd_line_args :
      List (String × String)) : List (String × String) :=
  applyArgs (applyArgs (applyArgs [] java_tool_options_args) java_options_args)
    cmd_line_args

/-! ### Property list unique add (spec section 4.2)

`Arguments::PropertyList_unique_add` (arguments.hpp line 728) is implemented
in `arguments.cpp`, absent from this snapshot; it is modelled from the
specification.  A property node is modelled as its key/value pair (the
writeable and internal flags play no role in unique add). -/

/-- Modelled from the spec: `Arguments::PropertyList_unique_add` scans the
ordered list for an existing node with the key; if found and append is set,
appends the value with the path-separator convention; if found and append is
not set, replaces the value in place; if not found, appends a new node at
the tail. -/
def PropertyList_unique_add (plist : List (String × String)) (k v : String)
    (ap : Bool) : List (String × String) :=
  match plist with
  | [] => [(k, v)]
  | (k', v') :: rest =>
      if k' = k then
        (if ap then (k', v' ++ pathSep ++ v) else (k', v)) :: rest
      else
        (k', v') :: PropertyList_unique_add rest k v ap

/-! ### GC and heap ergonomics (spec section 4.7)

`Arguments::set_heap_size`, `Arguments::select_gc` and
`Arguments::set_ergonomics_flags` (declared at arguments.hpp lines 446-453)
are implemented in `arguments.cpp`, absent from this snapshot; they are
modelled from the specification. -/

/-- Outcome of heap-size resolution: a resolved (min, initial, max) triple,
or the fatal explicit min/max contradiction. -/
inductive HeapResult
  | ok (min_heap initial_heap max_heap : Nat)
  | unreconcilableBound
deriving DecidableEq

/-- Modelled from the spec: the correction step of heap sizing — raise the
initial size up to the minimum; if the initial size then still exceeds the
maximum, an explicitly given initial size cannot be reconciled (fatal),
while a default initial size is lowered to the maximum. -/
def resolveHeapBounds (mn i0 mx : Nat) (initExplicit : Bool) : HeapResult :=
  let i := max i0 mn
  if mx < i then
    (if initExplicit then HeapResult.unreconcilableBound
     else HeapResult.ok mn mx mx)
  else HeapResult.ok mn i mx

/-- Modelled from the spec: `Arguments::set_heap_size` (declared at
arguments.hpp line 453).  Explicit flag values (`some`) are used where
given, defaults otherwise; violations of min ≤ initial ≤ max are corrected
only by raising initial or max up to min, never by lowering an explicit
user value; an explicit max below an explicit min is a fatal
unreconcilable-bound error. -/
def set_heap_size (emin einit emax : Option Nat) (dmin dinit dmax : Nat) :
    HeapResult :=
  match emin, emax with
  | some a, some b =>
      if b < a then HeapResult.unreconcilableBound
      else resolveHeapBounds a (einit.getD dinit) b einit.isSome
  | some a, none =>
      resolveHeapBounds a (einit.getD dinit) (max dmax a) einit.isSome
  | none, some b =>
      resolveHeapBounds dmin (einit.getD dinit) (max b dmin) einit.isSome
  | none, none =>
      resolveHeapBounds dmin (einit.getD dinit) (max dmax dmin) einit.isSome

/-- Explicit collector-selection flags (UseSerialGC, UseParallelGC,
UseConcMarkSweepGC, UseG1GC set on the command line). -/
structure GCFlagSettings where
  useSerialGC : Bool
  useParallelGC : Bool
  useConcMarkSweepGC : Bool
  useG1GC : Bool
deriving DecidableEq

/-- Supported collector kinds. -/
inductive GCKind
  | serial
  | parallel
  | cms
  | g1
deriving DecidableEq

/-- Number of explicit collector-selection flags that are set. -/
def explicitGCCount (f : GCFlagSettings) : Nat :=
  (if f.useSerialGC then 1 else 0) + (if f.useParallelGC then 1 else 0) +
    (if f.useConcMarkSweepGC then 1 else 0) + (if f.useG1GC then 1 else 0)

/-- Modelled from the spec: `Arguments::select_gc` (declared at
arguments.hpp line 446).  More than one explicit collector flag is a fatal
conflicting selection (`none`); exactly one selects that collector; none
selects the heuristic choice supplied by the OS-query collaborator. -/
def select_gc (f : GCFlagSettings) (heuristic : GCKind) : Option GCKind :=
  if 1 < explicitGCCount f then none
  else if f.useSerialGC then some GCKind.serial
  else if f.useParallelGC then some GCKind.parallel
  else if f.useConcMarkSweepGC then some GCKind.cms
  else if f.useG1GC then some GCKind.g1
  else some heuristic

/-- Outcome of the staged ergonomics resolver. -/
inductive ErgoResult
  | conflictingSelection
  | resolved (gc : GCKind) (align : Nat) (heap : HeapResult)
deriving DecidableEq

/-- Modelled from the spec: `Arguments::set_ergonomics_flags` (declared at
arguments.hpp line 447) runs the strictly ordered stages — collector
selection first, then heap alignment (a function of the chosen collector),
then heap sizing; a conflicting collector selection aborts the resolver
before alignment or sizing is computed. -/
def set_ergonomics_flags (f : GCFlagSettings) (heuristic : GCKind)
    (alignOf : GCKind → Nat) (emin einit emax : Option Nat)
    (dmin dinit dmax : Nat) : ErgoResult :=
  match select_gc f heuristic with
  | none => ErgoResult.conflictingSelection
  | some gc =>
      ErgoResult.resolved gc (alignOf gc)
        (set_heap_size emin einit emax dmin dinit dmax)

/-! ### Helper lemmas for the agent-library list -/

/-- Scanning for a node that is in the list succeeds, so the assertion
condition of `remove` holds. -/
theorem remove_found (l : List AgentLibrary) (lib : AgentLibrary)
    (h : lib.id ∈ l.map AgentLibrary.id) :
    (AgentLibraryList.remove l lib).2 = true := by
  induction l with
  | nil => simp at h
  | cons x xs ih =>
      by_cases hx : x.id = lib.id
      · simp [AgentLibraryList.remove, hx]
      · rw [List.map_cons, List.mem_cons] at h
        rcases h with h | h
        · exact absurd h.symm hx
        · simp [AgentLibraryList.remove, hx, ih h]

/-- Scanning for a node that is not in the list fails: the assertion
condition is false and the list is left unchanged. -/
theorem remove_not_found (l : List AgentLibrary) (lib : AgentLibrary)
    (h : lib.id ∉ l.map AgentLibrary.id) :
    AgentLibraryList.remove l lib = (l, false) := by
  induction l with
  | nil => rfl
  | cons x xs ih =>
      rw [List.map_cons, List.mem_cons] at h
      push_neg at h
      obtain ⟨h1, h2⟩ := h
      have hx : ¬ x.id = lib.id := fun e => h1 e.symm
      simp [AgentLibraryList.remove, hx, ih h2]

/-- Removal never reorders the remaining nodes: the result is a sublist. -/
theorem remove_sublist (l : List AgentLibrary) (lib : AgentLibrary) :
    List.Sublist (AgentLibraryList.remove l lib).1 l := by
  induction l with
  | nil => simp [AgentLibraryList.remove]
  | cons x xs ih =>
      by_cases hx : x.id = lib.id
      · simp [AgentLibraryList.remove, hx]
      · simpa [AgentLibraryList.remove, hx] using List.Sublist.cons₂ x ih

/-- Removing the unique occurrence of the node leaves no occurrence. -/
theorem remove_count (l : List AgentLibrary) (lib : AgentLibrary)
    (h : (l.map AgentLibrary.id).count lib.id = 1) :
    ((AgentLibraryList.remove l lib).1.map AgentLibrary.id).count lib.id = 0 := by
  induction l with
  | nil => simp at h
  | cons x xs ih =>
      by_cases hx : x.id = lib.id
      · simp [List.map_cons, List.count_cons, hx] at h
        simp [AgentLibraryList.remove, hx, h]
      · simp [List.map_cons, List.count_cons, hx] at h
        simp [AgentLibraryList.remove, hx, List.map_cons, List.count_cons, ih h]

/-- C5: calling AgentLibraryList::remove on a descriptor that is not in the
list makes the assertion condition of `assert(curr != NULL, "always should
be found")` false — a fatal programming error, with the list unchanged —
while under the precondition that the descriptor is in the list the
assertion holds, so the not-found branch is unreachable. -/
theorem remove_assertion_spec (l : List AgentLibrary) (lib : AgentLibrary) :
    (lib.id ∈ l.map AgentLibrary.id → (AgentLibraryList.remove l lib).2 = true) ∧
    (lib.id ∉ l.map AgentLibrary.id →
      (AgentLibraryList.remove l lib).2 = false ∧
      (AgentLibraryList.remove l lib).1 = l) := by
  refine ⟨fun h => remove_found l lib h, fun h => ?_⟩
  rw [remove_not_found l lib h]
  exact ⟨rfl, rfl⟩

/-- Witness for C5 at a concrete one-element list and a concrete absent
descriptor. -/
theorem remove_assertion_spec_witness :
    (AgentLibraryList.remove
        [⟨0, "a", none, 0, false, false, AgentState.agent_invalid⟩]
        ⟨0, "a", none, 0, false, false, AgentState.agent_invalid⟩).2 = true ∧
    (AgentLibraryList.remove []
        ⟨1, "b", none, 0, false, false, AgentState.agent_invalid⟩).2 = false := by
  constructor
  · exact (remove_assertion_spec
      [⟨0, "a", none, 0, false, false, AgentState.agent_invalid⟩]
      ⟨0, "a", none, 0, false, false, AgentState.agent_invalid⟩).1 (by decide)
  · exact ((remove_assertion_spec []
      ⟨1, "b", none, 0, false, false, AgentState.agent_invalid⟩).2 (by decide)).1

/-- C4: for a descriptor that is a member of the library list (and, per the
data-model invariant, of no other list node with the same identity), after
convert_library_to_agent the descriptor occurs exactly once in the agent
list, at its tail and with all fields unchanged, occurs zero times in the
library list, the relative order of the remaining library nodes and of the
pre-existing agent nodes is preserved, and the removal assertion holds. -/
theorem convert_library_to_agent_spec (libraries agents : List AgentLibrary)
    (lib : AgentLibrary)
    (hlib : (libraries.map AgentLibrary.id).count lib.id = 1)
    (hag : (agents.map AgentLibrary.id).count lib.id = 0) :
    (convert_library_to_agent libraries agents lib).1.2 = agents ++ [lib] ∧
    ((convert_library_to_agent libraries agents lib).1.2.map
        AgentLibrary.id).count lib.id = 1 ∧
    ((convert_library_to_agent libraries agents lib).1.1.map
        AgentLibrary.id).count lib.id = 0 ∧
    List.Sublist (convert_library_to_agent libraries agents lib).1.1 libraries ∧
    (convert_library_to_agent libraries agents lib).2 = true := by
  have hmem : lib.id ∈ libraries.map AgentLibrary.id := by
    have : 0 < (libraries.map AgentLibrary.id).count lib.id := by omega
    exact List.count_pos_iff.mp this
  refine ⟨rfl, ?_, ?_, ?_, ?_⟩
  · show ((AgentLibraryList.add agents lib).map AgentLibrary.id).count lib.id = 1
    simp [AgentLibraryList.add, hag]
  · exact remove_count libraries lib hlib
  · exact remove_sublist libraries lib
  · exact remove_found libraries lib hmem

/-- Witness for C4 at a concrete two-element library list and one-element
agent list. -/
theorem convert_library_to_agent_spec_witness :
    (convert_library_to_agent
        [⟨0, "a", none, 0, false, false, AgentState.agent_invalid⟩,
         ⟨1, "b", some "o", 2, true, true, AgentState.agent_valid⟩]
        [⟨2, "c", none, 0, false, false, AgentState.agent_invalid⟩]
        ⟨1, "b", some "o", 2, true, true, AgentState.agent_valid⟩).1.2 =
      [⟨2, "c", none, 0, false, false, AgentState.agent_invalid⟩,
       ⟨1, "b", some "o", 2, true, true, AgentState.agent_valid⟩] ∧
    (convert_library_to_agent
        [⟨0, "a", none, 0, false, false, AgentState.agent_invalid⟩,
         ⟨1, "b", some "o", 2, true, true, AgentState.agent_valid⟩]
        [⟨2, "c", none, 0, false, false, AgentState.agent_invalid⟩]
        ⟨1, "b", some "o", 2, true, true, AgentState.agent_valid⟩).2 = true := by
  have h := convert_library_to_agent_spec
    [⟨0, "a", none, 0, false, false, AgentState.agent_invalid⟩,
     ⟨1, "b", some "o", 2, true, true, AgentState.agent_valid⟩]
    [⟨2, "c", none, 0, false, false, AgentState.agent_invalid⟩]
    ⟨1, "b", some "o", 2, true, true, AgentState.agent_valid⟩
    (by decide) (by decide)
  exact ⟨h.1, h.2.2.2.2⟩

/-- C8: appending to a PathString whose value is a non-NULL string s leaves
the stored value equal to s, the platform path separator, and the argument
concatenated in that order, held in a freshly allocated buffer (the new
buffer id was never handed out before, in particular it differs from the old
one), with the old buffer freed. -/
theorem append_value_spec (ps : PathString) (a : Alloc) (i : Nat) (s p : String)
    (hb : ps.buf = some (i, s)) (hi : i < a.next) :
    (ps.append_value a (some p)).1.buf = some (a.next, s ++ pathSep ++ p) ∧
    a.next ≠ i ∧
    i ∈ (ps.append_value a (some p)).2.freed := by
  refine ⟨?_, by omega, ?_⟩ <;>
    simp [PathString.append_value, hb, Alloc.alloc, Alloc.free]

/-- Witness for C8 at a concrete buffer and argument. -/
theorem append_value_spec_witness :
    ((⟨some (0, "x")⟩ : PathString).append_value ⟨1, []⟩ (some "y")).1.buf =
      some (1, "x" ++ pathSep ++ "y") ∧
    (1 : Nat) ≠ 0 ∧
    0 ∈ ((⟨some (0, "x")⟩ : PathString).append_value ⟨1, []⟩ (some "y")).2.freed :=
  append_value_spec ⟨some (0, "x")⟩ ⟨1, []⟩ 0 "x" "y" rfl (by decide)

/-- C9: for a SystemProperty whose writeable flag is false,
set_writeable_value returns false and leaves everything unchanged; when the
flag is true it delegates to set_value, which replaces the value and
returns true. -/
theorem set_writeable_value_spec (sp : SystemProperty) (a : Alloc) (v : String) :
    (sp.writeable = false → sp.set_writeable_value a v = (sp, a, false)) ∧
    (sp.writeable = true →
      (sp.set_writeable_value a v).1 =
        { sp with path := (sp.path.set_value a v).1 } ∧
      (sp.set_writeable_value a v).1.value = some v ∧
      (sp.set_writeable_value a v).2.2 = true) := by
  constructor
  · intro h
    simp [SystemProperty.set_writeable_value, h]
  · intro h
    refine ⟨?_, ?_, ?_⟩ <;>
      simp [SystemProperty.set_writeable_value, h, SystemProperty.value,
        PathString.set_value, PathString.value]

/-- Witness for C9 at a concrete non-writeable and a concrete writeable
property. -/
theorem set_writeable_value_spec_witness :
    ((⟨⟨some (0, "old")⟩, some "k", false, false⟩ : SystemProperty).set_writeable_value
        ⟨1, []⟩ "new" =
      (⟨⟨some (0, "old")⟩, some "k", false, false⟩, ⟨1, []⟩, false)) ∧
    ((⟨⟨some (0, "old")⟩, some "k", false, true⟩ : SystemProperty).set_writeable_value
        ⟨1, []⟩ "new").1.value = some "new" :=
  ⟨(set_writeable_value_spec ⟨⟨some (0, "old")⟩, some "k", false, false⟩
      ⟨1, []⟩ "new").1 rfl,
   ((set_writeable_value_spec ⟨⟨some (0, "old")⟩, some "k", false, true⟩
      ⟨1, []⟩ "new").2 rfl).2.1⟩

/-- C10 counterexample: as stated, the write-once claim fails when the first
call stores the sentinel value -1 itself — the first set stores -1 (the
index was -1, so the store happens), yet a later call with 7 changes the
stored index. -/
theorem bootclassloader_append_index_claim_cex :
    set_bootclassloader_append_index
        (set_bootclassloader_append_index (-1) (-1)) 7 ≠
      set_bootclassloader_append_index (-1) (-1) := by
  decide

/-- C10 (amended): the bootclassloader append index is write-once for any
stored value other than the sentinel -1: starting from the sentinel, the
first call stores its argument, and when that argument is not -1 every
later call leaves the stored index unchanged, so the first set wins. -/
theorem bootclassloader_append_index_write_once (v : Int) (hv : v ≠ -1)
    (later : List Int) :
    set_bootclassloader_append_index (-1) v = v ∧
    later.foldl set_bootclassloader_append_index
        (set_bootclassloader_append_index (-1) v) = v := by
  have h1 : set_bootclassloader_append_index (-1) v = v := by
    simp [set_bootclassloader_append_index]
  refine ⟨h1, ?_⟩
  rw [h1]
  induction later with
  | nil => rfl
  | cons w ws ih =>
      have hstep : set_bootclassloader_append_index v w = v := by
        simp [set_bootclassloader_append_index, hv]
      simpa [List.foldl, hstep] using ih

/-- Witness for the amended C10 at value 5 with two later calls. -/
theorem bootclassloader_append_index_write_once_witness :
    set_bootclassloader_append_index (-1) 5 = 5 ∧
    [9, 11].foldl set_bootclassloader_append_index
        (set_bootclassloader_append_index (-1) 5) = 5 :=
  bootclassloader_append_index_write_once 5 (by decide) [9, 11]

/-! ### Helper lemmas for memory-size parsing -/

/-- A decimal digit is never a unit suffix. -/
theorem unitMultiplier_eq_none_of_isDigit (d : Char) (h : d.isDigit = true) :
    unitMultiplier d = none := by
  have h1 : ¬ (d = 'k' ∨ d = 'K') := by
    rintro (rfl | rfl) <;> exact absurd h (by decide)
  have h2 : ¬ (d = 'm' ∨ d = 'M') := by
    rintro (rfl | rfl) <;> exact absurd h (by decide)
  have h3 : ¬ (d = 'g' ∨ d = 'G') := by
    rintro (rfl | rfl) <;> exact absurd h (by decide)
  simp [unitMultiplier, h1, h2, h3]

/-- Splitting a numeral followed by a unit suffix. -/
theorem splitUnitSuffix_concat (ds : List Char) (c : Char) (m : Nat)
    (h : unitMultiplier c = some m) :
    splitUnitSuffix (ds ++ [c]) = (ds, m) := by
  simp [splitUnitSuffix, List.getLast?_concat, List.dropLast_concat, h]

/-- Splitting a pure numeral: no unit suffix, multiplier 1. -/
theorem splitUnitSuffix_digits (ds : List Char) (h0 : ds ≠ [])
    (h1 : ∀ d ∈ ds, d.isDigit = true) :
    splitUnitSuffix ds = (ds, 1) := by
  have hlast : ds.getLast? = some (ds.getLast h0) := List.getLast?_eq_getLast ds h0
  have hmem : ds.getLast h0 ∈ ds := List.getLast_mem h0
  have hnone := unitMultiplier_eq_none_of_isDigit _ (h1 _ hmem)
  simp [splitUnitSuffix, hlast, hnone]

/-- Evaluation of the parser once the split yields a well-formed numeral. -/
theorem parse_memory_size_of_split (s ds : List Char) (m mn : Nat)
    (hs : splitUnitSuffix s = (ds, m)) (h0 : ds ≠ [])
    (h1 : ∀ d ∈ ds, d.isDigit = true) :
    parse_memory_size s mn =
      if 2 ^ 64 ≤ digitsToNat ds * m then (ArgsRange.arg_too_big, 0)
      else (check_memory_size (digitsToNat ds * m) mn, digitsToNat ds * m) := by
  have hnot : ¬ (ds = [] ∨ ∃ c ∈ ds, c.isDigit = false) := by
    rintro (h | ⟨c, hc, hcd⟩)
    · exact h0 h
    · rw [h1 c hc] at hcd
      cases hcd
  simp only [parse_memory_size, hs]
  rw [if_neg hnot]

/-- C1: for every input of the form of an unsigned decimal numeral with an
optional single-letter unit suffix k/K, m/M, g/G (whether the suffix is
present or not), parse_memory_size returns arg_in_range with the numeral
times the unit multiplier when that product is at least the minimum and fits
in 64 bits, arg_too_small when the product is below the minimum, arg_too_big
when the multiplication overflows 64 bits (detected before wrapping), and
arg_unreadable for malformed numerals, suffix-only or empty input. -/
theorem parse_memory_size_spec :
    (∀ ds c m mn, ds ≠ [] → (∀ d ∈ ds, d.isDigit = true) →
        unitMultiplier c = some m → digitsToNat ds * m < 2 ^ 64 →
        mn ≤ digitsToNat ds * m →
        parse_memory_size (ds ++ [c]) mn =
          (ArgsRange.arg_in_range, digitsToNat ds * m)) ∧
    (∀ ds mn, ds ≠ [] → (∀ d ∈ ds, d.isDigit = true) →
        digitsToNat ds < 2 ^ 64 → mn ≤ digitsToNat ds →
        parse_memory_size ds mn = (ArgsRange.arg_in_range, digitsToNat ds)) ∧
    (∀ ds c m mn, ds ≠ [] → (∀ d ∈ ds, d.isDigit = true) →
        unitMultiplier c = some m → digitsToNat ds * m < 2 ^ 64 →
        digitsToNat ds * m < mn →
        (parse_memory_size (ds ++ [c]) mn).1 = ArgsRange.arg_too_small) ∧
    (∀ ds mn, ds ≠ [] → (∀ d ∈ ds, d.isDigit = true) →
        digitsToNat ds < 2 ^ 64 → digitsToNat ds < mn →
        (parse_memory_size ds mn).1 = ArgsRange.arg_too_small) ∧
    (∀ ds c m mn, ds ≠ [] → (∀ d ∈ ds, d.isDigit = true) →
        unitMultiplier c = some m → 2 ^ 64 ≤ digitsToNat ds * m →
        parse_memory_size (ds ++ [c]) mn = (ArgsRange.arg_too_big, 0)) ∧
    (∀ ds mn, ds ≠ [] → (∀ d ∈ ds, d.isDigit = true) →
        2 ^ 64 ≤ digitsToNat ds →
        parse_memory_size ds mn = (ArgsRange.arg_too_big, 0)) ∧
    (∀ s mn, ((splitUnitSuffix s).1 = [] ∨
        ∃ c ∈ (splitUnitSuffix s).1, c.isDigit = false) →
        parse_memory_size s mn = (ArgsRange.arg_unreadable, 0)) := by
  refine ⟨?_, ?_, ?_, ?_, ?_, ?_, ?_⟩
  · intro ds c m mn h0 h1 hc hov hmin
    rw [parse_memory_size_of_split (ds ++ [c]) ds m mn
      (splitUnitSuffix_concat ds c m hc) h0 h1]
    rw [if_neg (by omega)]
    rw [check_memory_size, if_neg (by omega)]
  · intro ds mn h0 h1 hov hmin
    rw [parse_memory_size_of_split ds ds 1 mn
      (splitUnitSuffix_digits ds h0 h1) h0 h1]
    rw [if_neg (by omega)]
    rw [check_memory_size, if_neg (by omega), Nat.mul_one]
  · intro ds c m mn h0 h1 hc hov hmin
    rw [parse_memory_size_of_split (ds ++ [c]) ds m mn
      (splitUnitSuffix_concat ds c m hc) h0 h1]
    rw [if_neg (by omega)]
    rw [check_memory_size, if_pos (by omega)]
  · intro ds mn h0 h1 hov hmin
    rw [parse_memory_size_of_split ds ds 1 mn
      (splitUnitSuffix_digits ds h0 h1) h0 h1]
    rw [if_neg (by omega)]
    rw [check_memory_size, if_pos (by omega)]
  · intro ds c m mn h0 h1 hc hov
    rw [parse_memory_size_of_split (ds ++ [c]) ds m mn
      (splitUnitSuffix_concat ds c m hc) h0 h1]
    rw [if_pos hov]
  · intro ds mn h0 h1 hov
    rw [parse_memory_size_of_split ds ds 1 mn
      (splitUnitSuffix_digits ds h0 h1) h0 h1]
    rw [if_pos (by omega)]
  · intro s mn h
    simp only [parse_memory_size]
    rw [if_pos h]

/-- Witness for C1: the string 512m with minimum 1 parses in range to
512 times 1024 squared, the bare numeral 5 with minimum 10 is too small,
and the empty string is unreadable. -/
theorem parse_memory_size_spec_witness :
    parse_memory_size (['5', '1', '2'] ++ ['m']) 1 =
      (ArgsRange.arg_in_range, 512 * 1048576) ∧
    (parse_memory_size ['5'] 10).1 = ArgsRange.arg_too_small ∧
    parse_memory_size [] 1 = (ArgsRange.arg_unreadable, 0) :=
  ⟨parse_memory_size_spec.1 ['5', '1', '2'] 'm' 1048576 1 (by decide)
      (by decide) (by decide) (by decide) (by decide),
   parse_memory_size_spec.2.2.2.1 ['5'] 10 (by decide) (by decide)
      (by decide) (by decide),
   parse_memory_size_spec.2.2.2.2.2.2 [] 1 (by decide)⟩

/-! ### Helper lemmas for the resolved-flag store -/

/-- Recording a flag makes its value the resolved one. -/
theorem lookupFlag_setFlag_self (st : List (String × String)) (k v : String) :
    lookupFlag (setFlag st k v) k = some v := by
  induction st with
  | nil => simp [setFlag, lookupFlag]
  | cons x rest ih =>
      obtain ⟨x1, x2⟩ := x
      by_cases hx : x1 = k
      · simp [setFlag, hx, lookupFlag]
      · simp [setFlag, hx, lookupFlag, ih]

/-- Recording a flag leaves every other canonical name untouched. -/
theorem lookupFlag_setFlag_other (st : List (String × String)) (k q v : String)
    (h : q ≠ k) : lookupFlag (setFlag st k v) q = lookupFlag st q := by
  have hkq : ¬ k = q := fun e => h e.symm
  induction st with
  | nil => simp [setFlag, lookupFlag, hkq]
  | cons x rest ih =>
      obtain ⟨x1, x2⟩ := x
      by_cases hx : x1 = k
      · subst hx
        simp [setFlag, lookupFlag, hkq]
      · simp [setFlag, hx, lookupFlag, ih]

/-- Processing one stream: the stream's last binding for a name wins, and a
name the stream never sets keeps its prior resolution. -/
theorem lookupFlag_applyArgs (args st : List (String × String)) (k : String) :
    lookupFlag (applyArgs st args) k =
      match lastValue args k with
      | some v => some v
      | none => lookupFlag st k := by
  induction args generalizing st with
  | nil => simp [applyArgs, lastValue]
  | cons a as ih =>
      obtain ⟨ak, av⟩ := a
      have happ : applyArgs st ((ak, av) :: as) = applyArgs (setFlag st ak av) as := rfl
      rw [happ, ih]
      cases hlv : lastValue as k with
      | some w => simp [lastValue, hlv]
      | none =>
          by_cases hk : ak = k
          · subst hk
            simp [lastValue, hlv, lookupFlag_setFlag_self]
          · simp [lastValue, hlv, hk,
              lookupFlag_setFlag_other st ak k av (fun e => hk e.symm)]

/-- C2: for every canonical flag name set by an environment-variable option
source and also by the command line, the resolved flag after the merging
stage (parse_vm_init_args over the JAVA_TOOL_OPTIONS, _JAVA_OPTIONS and
command-line streams) holds the command-line value: the later,
higher-precedence source overrides the earlier one. -/
theorem parse_vm_init_args_precedence
    (tool opts cmd : List (String × String)) (k v : String)
    (_henv : (lastValue tool k).isSome = true ∨ (lastValue opts k).isSome = true)
    (hcmd : lastValue cmd k = some v) :
    lookupFlag (parse_vm_init_args tool opts cmd) k = some v := by
  rw [parse_vm_init_args, lookupFlag_applyArgs, hcmd]

/-- Witness for C2: the flag f is set to env by an environment stream and to
cli by the command line; the merged store resolves it to cli. -/
theorem parse_vm_init_args_precedence_witness :
    lookupFlag (parse_vm_init_args [("f", "env")] [] [("f", "cli")]) "f" =
      some "cli" :=
  parse_vm_init_args_precedence [("f", "env")] [] [("f", "cli")] "f" "cli"
    (Or.inl (by decide)) (by decide)

/-! ### Helper lemmas for the property list -/

/-- Unique add for an absent key appends a new node at the tail. -/
theorem unique_add_not_found (l : List (String × String)) (k v : String)
    (ap : Bool) (h : k ∉ l.map Prod.fst) :
    PropertyList_unique_add l k v ap = l ++ [(k, v)] := by
  induction l with
  | nil => rfl
  | cons x rest ih =>
      rw [List.map_cons, List.mem_cons] at h
      push_neg at h
      obtain ⟨x1, x2⟩ := x
      have hx : ¬ x1 = k := fun e => h.1 e.symm
      simp [PropertyList_unique_add, hx, ih h.2]

/-- Key sequence after a replacing unique add: unchanged when the key was
present, the key appended at the tail otherwise. -/
theorem unique_add_keys (l : List (String × String)) (k v : String) :
    (PropertyList_unique_add l k v false).map Prod.fst =
      if k ∈ l.map Prod.fst then l.map Prod.fst
      else l.map Prod.fst ++ [k] := by
  induction l with
  | nil => simp [PropertyList_unique_add]
  | cons x rest ih =>
      obtain ⟨x1, x2⟩ := x
      by_cases hx : x1 = k
      · subst hx
        simp [PropertyList_unique_add]
      · have hkx : ¬ k = x1 := fun e => hx e.symm
        by_cases hk : k ∈ rest.map Prod.fst
        · simp [PropertyList_unique_add, hx, ih, hk, List.mem_cons, hkx]
        · simp [PropertyList_unique_add, hx, ih, hk, List.mem_cons, hkx]

/-- The key is always present after a replacing unique add. -/
theorem unique_add_mem (l : List (String × String)) (k v : String) :
    k ∈ (PropertyList_unique_add l k v false).map Prod.fst := by
  rw [unique_add_keys]
  by_cases hk : k ∈ l.map Prod.fst <;> simp [hk]

/-- The key resolves to the newly added value. -/
theorem unique_add_lookup_self (l : List (String × String)) (k v : String) :
    lookupFlag (PropertyList_unique_add l k v false) k = some v := by
  induction l with
  | nil => simp [PropertyList_unique_add, lookupFlag]
  | cons x rest ih =>
      obtain ⟨x1, x2⟩ := x
      by_cases hx : x1 = k
      · simp [PropertyList_unique_add, hx, lookupFlag]
      · simp [PropertyList_unique_add, hx, lookupFlag, ih]

/-- Every other key resolves as before the unique add. -/
theorem unique_add_lookup_other (l : List (String × String)) (k q v : String)
    (ap : Bool) (h : q ≠ k) :
    lookupFlag (PropertyList_unique_add l k v ap) q = lookupFlag l q := by
  have hkq : ¬ k = q := fun e => h e.symm
  induction l with
  | nil => simp [PropertyList_unique_add, lookupFlag, hkq]
  | cons x rest ih =>
      obtain ⟨x1, x2⟩ := x
      by_cases hx : x1 = k
      · subst hx
        cases ap <;> simp [PropertyList_unique_add, lookupFlag, hkq]
      · simp [PropertyList_unique_add, hx, lookupFlag, ih]

/-- After a replacing unique add on a list whose keys respect the uniqueness
invariant, the key occurs exactly once. -/
theorem unique_add_count (l : List (String × String)) (k v : String)
    (h : (l.map Prod.fst).count k ≤ 1) :
    ((PropertyList_unique_add l k v false).map Prod.fst).count k = 1 := by
  rw [unique_add_keys]
  by_cases hk : k ∈ l.map Prod.fst
  · rw [if_pos hk]
    have hpos := List.count_pos_iff.mpr hk
    omega
  · rw [if_neg hk, List.count_append]
    rw [List.count_eq_zero.mpr hk]
    simp

/-- C3: on a property list respecting the key-uniqueness invariant, calling
PropertyList_unique_add twice with the same key and append false leaves
exactly one node for that key, holding the second value; the node keeps the
position it had after the first call and the relative order and values of
all other nodes are unchanged; for a key that is not present, unique add
appends a new node at the tail. -/
theorem unique_add_twice_spec (l : List (String × String)) (k v1 v2 : String)
    (h : (l.map Prod.fst).count k ≤ 1) :
    ((PropertyList_unique_add (PropertyList_unique_add l k v1 false) k v2
        false).map Prod.fst).count k = 1 ∧
    lookupFlag (PropertyList_unique_add (PropertyList_unique_add l k v1 false)
        k v2 false) k = some v2 ∧
    (PropertyList_unique_add (PropertyList_unique_add l k v1 false) k v2
        false).map Prod.fst =
      (PropertyList_unique_add l k v1 false).map Prod.fst ∧
    (∀ q, q ≠ k →
      lookupFlag (PropertyList_unique_add (PropertyList_unique_add l k v1
          false) k v2 false) q = lookupFlag l q) ∧
    (k ∉ l.map Prod.fst →
      PropertyList_unique_add l k v1 false = l ++ [(k, v1)]) := by
  have h1 : ((PropertyList_unique_add l k v1 false).map Prod.fst).count k = 1 :=
    unique_add_count l k v1 h
  refine ⟨unique_add_count _ k v2 (by omega), unique_add_lookup_self _ k v2,
    ?_, ?_, unique_add_not_found l k v1 false⟩
  · rw [unique_add_keys, if_pos (unique_add_mem l k v1)]
  · intro q hq
    rw [unique_add_lookup_other _ k q v2 false hq,
      unique_add_lookup_other l k q v1 false hq]

/-- Witness for C3 at a concrete one-node list and a fresh key. -/
theorem unique_add_twice_spec_witness :
    ((PropertyList_unique_add (PropertyList_unique_add [("a", "1")] "b" "x"
        false) "b" "y" false).map Prod.fst).count "b" = 1 ∧
    lookupFlag (PropertyList_unique_add (PropertyList_unique_add [("a", "1")]
        "b" "x" false) "b" "y" false) "b" = some "y" ∧
    PropertyList_unique_add [("a", "1")] "b" "x" false =
      [("a", "1")] ++ [("b", "x")] := by
  have h := unique_add_twice_spec [("a", "1")] "b" "x" "y" (by decide)
  exact ⟨h.1, h.2.1, h.2.2.2.2 (by decide)⟩

/-! ### Helper lemmas for heap-size resolution -/

/-- Shape of a successful bound resolution: the minimum is kept, the initial
size is raised at least to the minimum and stays at or below the maximum,
the maximum is kept, and an explicitly given initial size is never
lowered. -/
theorem resolveHeapBounds_ok (mn i0 mx : Nat) (e : Bool) (m i x : Nat)
    (hmx : mn ≤ mx)
    (h : resolveHeapBounds mn i0 mx e = HeapResult.ok m i x) :
    m = mn ∧ mn ≤ i ∧ i ≤ x ∧ x = mx ∧ (e = true → i0 ≤ i) := by
  simp only [resolveHeapBounds] at h
  by_cases hc : mx < max i0 mn
  · rw [if_pos hc] at h
    cases e with
    | true => simp at h
    | false =>
        simp only [Bool.false_eq_true, if_false, HeapResult.ok.injEq] at h
        obtain ⟨h1, h2, h3⟩ := h
        subst h1; subst h2; subst h3
        exact ⟨rfl, hmx, le_refl _, rfl, by simp⟩
  · rw [if_neg hc] at h
    simp only [HeapResult.ok.injEq] at h
    obtain ⟨h1, h2, h3⟩ := h
    subst h1; subst h2; subst h3
    exact ⟨rfl, le_max_right _ _, by omega, rfl, fun _ => le_max_left _ _⟩


/-- Master invariant of a successful heap-size resolution: ordering of the
resolved triple and preservation of every explicitly given value (the
explicit min is kept exactly; the explicit initial and max are never
lowered). -/
theorem set_heap_size_ok (emin einit emax : Option Nat)
    (dmin dinit dmax m i x : Nat)
    (h : set_heap_size emin einit emax dmin dinit dmax = HeapResult.ok m i x) :
    m ≤ i ∧ i ≤ x ∧
    (∀ a, emin = some a → m = a) ∧
    (∀ j, einit = some j → j ≤ i) ∧
    (∀ b, emax = some b → b ≤ x) := by
  cases emin with
  | some a =>
      cases emax with
      | some b =>
          simp only [set_heap_size] at h
          by_cases hba : b < a
          · rw [if_pos hba] at h
            exact absurd h (by simp)
          · rw [if_neg hba] at h
            obtain ⟨h1, h2, h3, h4, h5⟩ :=
              resolveHeapBounds_ok a (einit.getD dinit) b einit.isSome m i x
                (by omega) h
            refine ⟨by omega, by omega, ?_, ?_, ?_⟩
            · intro a' ha'
              injection ha' with ha'
              omega
            · intro j hj
              rw [hj] at h5
              simp at h5
              omega
            · intro b' hb'
              injection hb' with hb'
              omega
      | none =>
          simp only [set_heap_size] at h
          obtain ⟨h1, h2, h3, h4, h5⟩ :=
            resolveHeapBounds_ok a (einit.getD dinit) (max dmax a)
              einit.isSome m i x (le_max_right _ _) h
          refine ⟨by omega, by omega, ?_, ?_, ?_⟩
          · intro a' ha'
            injection ha' with ha'
            omega
          · intro j hj
            rw [hj] at h5
            simp at h5
            omega
          · intro b' hb'
            cases hb'
  | none =>
      cases emax with
      | some b =>
          simp only [set_heap_size] at h
          obtain ⟨h1, h2, h3, h4, h5⟩ :=
            resolveHeapBounds_ok dmin (einit.getD dinit) (max b dmin)
              einit.isSome m i x (le_max_right _ _) h
          refine ⟨by omega, by omega, ?_, ?_, ?_⟩
          · intro a' ha'
            cases ha'
          · intro j hj
            rw [hj] at h5
            simp at h5
            omega
          · intro b' hb'
            injection hb' with hb'
            have hle := le_max_left b dmin
            omega
      | none =>
          simp only [set_heap_size] at h
          obtain ⟨h1, h2, h3, h4, h5⟩ :=
            resolveHeapBounds_ok dmin (einit.getD dinit) (max dmax dmin)
              einit.isSome m i x (le_max_right _ _) h
          refine ⟨by omega, by omega, ?_, ?_, ?_⟩
          · intro a' ha'
            cases ha'
          · intro j hj
            rw [hj] at h5
            simp at h5
            omega
          · intro b' hb'
            cases hb'

/-- C6: after heap-sizing resolution succeeds the configuration satisfies
min ≤ initial ≤ max; a violation is corrected only by raising values, never
by lowering one the user set explicitly (the explicit min is kept, an
explicit initial or max is never lowered); an explicitly given max smaller
than an explicitly given min fails fatally with the unreconcilable-bound
error instead of adjusting either; and with only an explicit min given, the
resolved initial and max are both at least that min. -/
theorem set_heap_size_spec :
    (∀ emin einit emax dmin dinit dmax m i x,
        set_heap_size emin einit emax dmin dinit dmax = HeapResult.ok m i x →
        m ≤ i ∧ i ≤ x ∧
        (∀ a, emin = some a → m = a) ∧
        (∀ j, einit = some j → j ≤ i) ∧
        (∀ b, emax = some b → b ≤ x)) ∧
    (∀ a b einit dmin dinit dmax, b < a →
        set_heap_size (some a) einit (some b) dmin dinit dmax =
          HeapResult.unreconcilableBound) ∧
    (∀ c dmin dinit dmax, ∃ i x,
        set_heap_size (some c) none none dmin dinit dmax =
          HeapResult.ok c i x ∧ c ≤ i ∧ c ≤ x) := by
  refine ⟨fun emin einit emax dmin dinit dmax m i x h =>
    set_heap_size_ok emin einit emax dmin dinit dmax m i x h, ?_, ?_⟩
  · intro a b einit dmin dinit dmax hba
    simp only [set_heap_size]
    rw [if_pos hba]
  · intro c dmin dinit dmax
    have hred : set_heap_size (some c) none none dmin dinit dmax =
        resolveHeapBounds c dinit (max dmax c) false := rfl
    by_cases hc : max dmax c < max dinit c
    · refine ⟨max dmax c, max dmax c, ?_, le_max_right _ _, le_max_right _ _⟩
      rw [hred]
      simp only [resolveHeapBounds]
      rw [if_pos hc]
      rfl
    · refine ⟨max dinit c, max dmax c, ?_, le_max_right _ _, le_max_right _ _⟩
      rw [hred]
      simp only [resolveHeapBounds]
      rw [if_neg hc]

/-- Witness for C6: explicit min 256m with explicit max 128m is an
unreconcilable bound, and explicit min 256m alone resolves with initial and
max at least 256m. -/
theorem set_heap_size_spec_witness :
    set_heap_size (some 268435456) none (some 134217728) 0 0 0 =
      HeapResult.unreconcilableBound ∧
    (∃ i x, set_heap_size (some 268435456) none none 0 0 0 =
      HeapResult.ok 268435456 i x ∧ 268435456 ≤ i ∧ 268435456 ≤ x) :=
  ⟨set_heap_size_spec.2.1 268435456 134217728 none 0 0 0 (by decide),
   set_heap_size_spec.2.2 268435456 0 0 0⟩

/-- C7: when more than one explicit collector flag is set, the ergonomics
resolver fails with the conflicting-selection error during its first stage,
before heap alignment or heap sizing are computed (the outcome is the same
for every alignment function and every sizing input); with exactly one
explicit collector flag the resolver uses that collector; with none it
selects the heuristic choice. -/
theorem set_ergonomics_flags_spec :
    (∀ f h alignOf emin einit emax dmin dinit dmax, 1 < explicitGCCount f →
        set_ergonomics_flags f h alignOf emin einit emax dmin dinit dmax =
          ErgoResult.conflictingSelection) ∧
    (∀ f (h : GCKind), explicitGCCount f = 1 →
        (f.useSerialGC = true → select_gc f h = some GCKind.serial) ∧
        (f.useParallelGC = true → select_gc f h = some GCKind.parallel) ∧
        (f.useConcMarkSweepGC = true → select_gc f h = some GCKind.cms) ∧
        (f.useG1GC = true → select_gc f h = some GCKind.g1)) ∧
    (∀ f (h : GCKind), explicitGCCount f = 0 → select_gc f h = some h) ∧
    (∀ f h alignOf emin einit emax dmin dinit dmax gc,
        select_gc f h = some gc →
        set_ergonomics_flags f h alignOf emin einit emax dmin dinit dmax =
          ErgoResult.resolved gc (alignOf gc)
            (set_heap_size emin einit emax dmin dinit dmax)) := by
  refine ⟨?_, ?_, ?_, ?_⟩
  · intro f h alignOf emin einit emax dmin dinit dmax hcount
    have hsel : select_gc f h = none := by
      simp only [select_gc]
      rw [if_pos hcount]
    simp only [set_ergonomics_flags, hsel]
  · intro f h hcount
    obtain ⟨s, p, c, g⟩ := f
    cases s <;> cases p <;> cases c <;> cases g <;>
      simp_all [explicitGCCount, select_gc]
  · intro f h hcount
    obtain ⟨s, p, c, g⟩ := f
    cases s <;> cases p <;> cases c <;> cases g <;>
      simp_all [explicitGCCount, select_gc]
  · intro f h alignOf emin einit emax dmin dinit dmax gc hsel
    simp only [set_ergonomics_flags, hsel]

/-- Witness for C7: two explicit collector flags conflict; one explicit flag
selects that collector; no explicit flag selects the heuristic choice. -/
theorem set_ergonomics_flags_spec_witness :
    set_ergonomics_flags ⟨true, true, false, false⟩ GCKind.g1 (fun _ => 1)
        none none none 0 0 0 = ErgoResult.conflictingSelection ∧
    select_gc ⟨false, false, true, false⟩ GCKind.g1 = some GCKind.cms ∧
    select_gc ⟨false, false, false, false⟩ GCKind.g1 = some GCKind.g1 :=
  ⟨set_ergonomics_flags_spec.1 ⟨true, true, false, false⟩ GCKind.g1
      (fun _ => 1) none none none 0 0 0 (by decide),
   (set_ergonomics_flags_spec.2.1 ⟨false, false, true, false⟩ GCKind.g1
      (by decide)).2.2.1 rfl,
   set_ergonomics_flags_spec.2.2.1 ⟨false, false, false, false⟩ GCKind.g1
      (by decide)⟩
